/-
Verification of the Delphi voice-browsing frontend's real-time streaming
client, as a shallow embedding in Lean 4.

The embedding covers:
* the inbound-frame dispatcher of the streaming protocol client
  (`MultimodalLiveClient.receive` and its repeated-phrase text filter),
* the tool-call intent gate of the browser-intent agent (`onToolCall`),
* the bounded outbound buffer queue of the audio recorder,
* the voice-activity segmentation of the audio-capture pipeline, and
* the connect/disconnect lifecycle of the protocol client.

JavaScript strings are modelled as Lean `String`s, with the handful of
JS string methods the source uses re-implemented over `List Char` so that
all definitions evaluate inside the kernel.  JS `number` timestamps and
durations are modelled as `Nat` milliseconds; audio levels as `ℚ`.
Asynchronous emission is modelled by lists of `(delay in ms, event)`
pairs: an entry `(t, e)` means event `e` is emitted `t` milliseconds
after the frame is processed, entries being emitted in list order at
non-decreasing times.
-/
import Mathlib

namespace Delphi

/-! ### JS string primitives over character lists -/

/-- JS `String.prototype.trim` (ASCII whitespace). -/
def trimChars (l : List Char) : List Char :=
  ((l.dropWhile Char.isWhitespace).reverse.dropWhile Char.isWhitespace).reverse

/-- JS `s.trim()`. -/
def jsTrim (s : String) : String := String.mk (trimChars s.data)

/-- JS `s.toLowerCase()` (ASCII letters). -/
def jsToLower (s : String) : String := String.mk (s.data.map Char.toLower)

/-- One step of JS `s.replace(/\s+/g, " ")`: collapse every maximal run of
whitespace characters into a single space. -/
def collapseWs : List Char → List Char
  | [] => []
  | c :: cs =>
    if c.isWhitespace then
      match cs with
      | [] => [' ']
      | d :: _ => if d.isWhitespace then collapseWs cs else ' ' :: collapseWs cs
    else c :: collapseWs cs

/-- JS `s.replace(/\s+/g, " ")`. -/
def jsCollapseWs (s : String) : String := String.mk (collapseWs s.data)

/-- Split a character list at every character satisfying `p`, keeping empty
segments (as JS `split` does between adjacent separators). -/
def splitChars (p : Char → Bool) : List Char → List (List Char)
  | [] => [[]]
  | c :: t =>
    let r := splitChars p t
    if p c then [] :: r
    else
      match r with
      | [] => [[c]]
      | h :: t2 => (c :: h) :: t2

/-- JS `s.split(<char class>)`, as a list of strings. -/
def jsSplitAny (s : String) (p : Char → Bool) : List String :=
  (splitChars p s.data).map String.mk

/-- Does `needle` occur as a contiguous substring of `hay`?  JS
`hay.includes(needle)` on character lists. -/
def subOccurs (needle : List Char) : List Char → Bool
  | [] => needle.isEmpty
  | c :: t => needle.isPrefixOf (c :: t) || subOccurs needle t

/-- JS `s.includes(sub)`. -/
def jsIncludes (s sub : String) : Bool := subOccurs sub.data s.data

/-- JS `new Set(l)` enumerated in insertion order: first occurrences, in
order. -/
def jsSetOf [DecidableEq α] : List α → List α
  | [] => []
  | x :: xs => x :: (jsSetOf xs).filter (fun y => decide (y ≠ x))

/-! ### `MultimodalLiveClient.calculateSimilarity`

The source computes `intersection.size / union.size` over the two
word sets (split on single spaces) and the caller compares the quotient
against the literal `0.7`.  The embedding keeps the two set sizes and
states the comparison with denominators cleared, which agrees with the
JS floating-point comparison for every input (including the `0/0 = NaN`
case, where both are false); `calculateSimilarity_gt_iff` below records
the equivalence with the exact rational quotient. -/

/-- The word set of a string, i.e. JS `new Set(str.split(' '))`. -/
def wordSet (s : String) : List String :=
  jsSetOf (jsSplitAny s (fun c => c == ' '))

/-- Size of the intersection of the two word sets. -/
def interCount (s1 s2 : String) : Nat :=
  ((wordSet s1).filter (fun w => decide (w ∈ wordSet s2))).length

/-- Size of the union of the two word sets. -/
def unionCount (s1 s2 : String) : Nat :=
  (jsSetOf (wordSet s1 ++ wordSet s2)).length

/-- `calculateSimilarity(s1, s2)` as an exact rational. -/
def calculateSimilarity (s1 s2 : String) : ℚ :=
  (interCount s1 s2 : ℚ) / (unionCount s1 s2 : ℚ)

/-- `calculateSimilarity(s1, s2) > 0.7`, with denominators cleared. -/
def similarityGtPoint7 (s1 s2 : String) : Bool :=
  decide (7 * unionCount s1 s2 < 10 * interCount s1 s2)

theorem jsSetOf_eq_nil [DecidableEq α] {l : List α} (h : jsSetOf l = []) :
    l = [] := by
  cases l with
  | nil => rfl
  | cons x xs => simp [jsSetOf] at h

theorem calculateSimilarity_gt_iff (s1 s2 : String) :
    similarityGtPoint7 s1 s2 = true ↔ calculateSimilarity s1 s2 > 7 / 10 := by
  unfold similarityGtPoint7 calculateSimilarity
  rcases h : unionCount s1 s2 with _ | u
  · have hws : wordSet s1 = [] := by
      have := jsSetOf_eq_nil (List.length_eq_zero.mp h)
      exact (List.append_eq_nil.mp this).1
    have hi : interCount s1 s2 = 0 := by
      simp [interCount, hws]
    simp [hi]
    norm_num
  · have hupos : (0 : ℚ) < ((u + 1 : Nat) : ℚ) := by positivity
    rw [decide_eq_true_iff, gt_iff_lt, div_lt_div_iff₀ (by norm_num) hupos]
    constructor <;> intro hlt
    · have : ((7 * (u + 1) : Nat) : ℚ) < ((10 * interCount s1 s2 : Nat) : ℚ) := by
        exact_mod_cast hlt
      push_cast at this ⊢
      linarith
    · have : ((7 * (u + 1) : Nat) : ℚ) < ((10 * interCount s1 s2 : Nat) : ℚ) := by
        push_cast
        push_cast at hlt
        linarith
      exact_mod_cast this

/-! ### `MultimodalLiveClient.removeRepeatedPhrases` -/

/-- The normalisation the filter applies to a trimmed sentence:
`trimmed.toLowerCase().replace(/\s+/g, ' ')`. -/
def normalizeSentence (s : String) : String := jsCollapseWs (jsToLower s)

/-- The duplicate test of the inner loop: some already-seen normalized form
is a substring of `normalized`, contains it, or has Jaccard similarity
above `0.7` with it. -/
def isNearDuplicate (seen : List String) (normalized : String) : Bool :=
  seen.any fun sn =>
    jsIncludes normalized sn || jsIncludes sn normalized ||
      similarityGtPoint7 normalized sn

/-- The sentence loop of `removeRepeatedPhrases`: the accumulator pairs the
`uniqueSentences` array with the `seenContent` set (in insertion order). -/
def uniqLoop : List String → List String × List String → List String × List String
  | [], acc => acc
  | sentence :: rest, acc =>
    let trimmed := jsTrim sentence
    if trimmed.length < 3 then uniqLoop rest acc
    else
      let normalized := normalizeSentence trimmed
      if isNearDuplicate acc.2 normalized then uniqLoop rest acc
      else uniqLoop rest (acc.1 ++ [trimmed], acc.2 ++ [normalized])

/-- `text.split(/[.!?]+/).filter(s => s.trim().length > 0)`.  The JS regex
split collapses runs of sentence-ending punctuation; splitting at every
such character instead only adds blank segments, which the filter removes,
so the two agree. -/
def sentencesOf (text : String) : List String :=
  (jsSplitAny text (fun c => c == '.' || c == '!' || c == '?')).filter
    (fun s => decide (0 < (jsTrim s).length))

/-- JS `text.endsWith('.')`. -/
def endsWithDot (text : String) : Bool := text.data.getLast? == some '.'

/-- `MultimodalLiveClient.removeRepeatedPhrases`, translated from the
source: texts shorter than 10 characters or with at most one sentence are
returned unchanged; otherwise the kept sentences are re-joined with
`'. '` plus a trailing period when the input ended with one. -/
def removeRepeatedPhrases (text : String) : String :=
  if text.length < 10 then text
  else
    let sentences := sentencesOf text
    if sentences.length ≤ 1 then text
    else
      String.intercalate ". " (uniqLoop sentences ([], [])).1 ++
        (if endsWithDot text then "." else "")

/-- The filter exactly as claim C5 words it: every segment is kept unless
its normalized form is a near-duplicate (containment either way, or
Jaccard similarity above 0.7) of an already-kept segment — with no
minimum segment length and no short-text pass-through. -/
def claimKept : List String → List String → List String
  | [], _ => []
  | s :: rest, kept =>
    let trimmed := jsTrim s
    if isNearDuplicate (kept.map normalizeSentence) (normalizeSentence trimmed) then
      claimKept rest kept
    else trimmed :: claimKept rest (kept ++ [trimmed])

/-- Claim C5's filter applied to a whole text, re-joined the way the
source re-joins kept segments. -/
def claimFilter (text : String) : String :=
  String.intercalate ". " (claimKept (sentencesOf text) []) ++
    (if endsWithDot text then "." else "")

/-- The amended claim-C5 filter: like `claimKept` but segments whose
trimmed form is shorter than 3 characters are dropped unconditionally. -/
def amendedKept : List String → List String → List String
  | [], _ => []
  | s :: rest, kept =>
    let trimmed := jsTrim s
    if trimmed.length < 3 then amendedKept rest kept
    else if isNearDuplicate (kept.map normalizeSentence) (normalizeSentence trimmed) then
      amendedKept rest kept
    else trimmed :: amendedKept rest (kept ++ [trimmed])

/-- The amended claim-C5 filter on a whole text: texts shorter than 10
characters or with at most one sentence segment pass through unchanged;
otherwise the segments kept by `amendedKept` are re-joined in their
original order. -/
def amendedFilter (text : String) : String :=
  if text.length < 10 then text
  else if (sentencesOf text).length ≤ 1 then text
  else
    String.intercalate ". " (amendedKept (sentencesOf text) []) ++
      (if endsWithDot text then "." else "")

theorem uniqLoop_eq_amendedKept (ss : List String) :
    ∀ kept : List String,
      (uniqLoop ss (kept, kept.map normalizeSentence)).1 =
        kept ++ amendedKept ss kept := by
  induction ss with
  | nil => intro kept; simp [uniqLoop, amendedKept]
  | cons s rest ih =>
    intro kept
    show (uniqLoop (s :: rest) (kept, kept.map normalizeSentence)).1 = _
    rw [uniqLoop, amendedKept]
    by_cases h3 : (jsTrim s).length < 3
    · simp only [h3, if_true]
      exact ih kept
    · simp only [h3, if_false]
      by_cases hd :
          isNearDuplicate (kept.map normalizeSentence) (normalizeSentence (jsTrim s)) = true
      · simp only [hd, if_true]
        exact ih kept
      · simp only [hd, if_false]
        have := ih (kept ++ [jsTrim s])
        rw [List.map_append] at this
        simpa [List.append_assoc] using this

/-- C5: counterexample to the claim as stated.  In
"Hello there. Ok. Goodbye friend", the segment "Ok" is not a
near-duplicate (containment or similarity) of the kept segment
"Hello there", so the claimed filter keeps it; the source filter drops
it anyway because its trimmed length is below 3 characters. -/
theorem removeRepeatedPhrases_claim_counterexample :
    removeRepeatedPhrases "Hello there. Ok. Goodbye friend" ≠
      claimFilter "Hello there. Ok. Goodbye friend" := by
  decide

/-- C5 (amended): the repeated-phrase filter splits the text into sentence
segments and keeps them in original order, dropping exactly those whose
normalized form is a near-duplicate (containment either way, or word-set
Jaccard similarity strictly above 0.7) of an already-kept segment —
except that segments whose trimmed form is shorter than 3 characters are
always dropped, and texts shorter than 10 characters or with at most one
sentence segment are passed through unchanged. -/
theorem removeRepeatedPhrases_eq_amendedFilter (text : String) :
    removeRepeatedPhrases text = amendedFilter text := by
  unfold removeRepeatedPhrases amendedFilter
  by_cases h1 : text.length < 10
  · simp [h1]
  · by_cases h2 : (sentencesOf text).length ≤ 1
    · simp [h1, h2]
    · simp only [h1, h2, if_false]
      have := uniqLoop_eq_amendedKept (sentencesOf text) []
      simp at this
      rw [this]

/-! ### `MultimodalLiveClient.receive`

The client classifies each inbound frame and raises typed events.  The
frame shapes come from the repository's `multimodal-live-types` module,
which is not among the provided sources; the structures below follow the
spec's data model (§3/§6): a `ServerContent` frame carries an optional
model turn (a list of parts), an `interrupted` flag and a `turnComplete`
flag, and a part carries optional text and optional inline data with a
MIME type and base64 payload.  Audio events carry the base64 payload
itself (the source decodes it to an `ArrayBuffer` first; the decoding is
irrelevant to the claims). -/

/-- Modelled from the spec: the `inlineData` member of a content part
(`multimodal-live-types` is not among the provided sources); MIME type
plus base64 payload, per spec §3 RealtimeInput/§6. -/
structure InlineData where
  mimeType : String
  data : String
deriving DecidableEq, Repr

/-- Modelled from the spec: a content part (optional text, optional
inline data), per spec §3/§6. -/
structure ContentPart where
  text : Option String := none
  inlineData : Option InlineData := none
deriving DecidableEq, Repr

/-- Modelled from the spec: a `ServerContent` frame
(`{modelTurn?, interrupted?, turnComplete?}`), per spec §3/§6. -/
structure ServerContent where
  interrupted : Bool := false
  turnComplete : Bool := false
  modelTurn : Option (List ContentPart) := none
deriving DecidableEq, Repr

/-- The audio-part test of `receive`:
`p.inlineData && p.inlineData.mimeType.startsWith("audio/pcm")`. -/
def isAudioPart (p : ContentPart) : Bool :=
  match p.inlineData with
  | some d => "audio/pcm".data.isPrefixOf d.mimeType.data
  | none => false

/-- The events `MultimodalLiveClient` emits (`log` events omitted). -/
inductive ClientEvent where
  | audio (data : String)
  | content (parts : List ContentPart)
  | interrupted
  | turncomplete
  | setupcomplete
  | toolcall (ids : List String)
  | toolcallcancellation (ids : List String)
deriving DecidableEq, Repr

/-- Grace delay before `turncomplete` after an interruption (ms). -/
def INTERRUPT_GRACE_MS : Nat := 700

/-- Delay before `turncomplete` for an ordinary turn-complete frame (ms). -/
def TURN_COMPLETE_DELAY_MS : Nat := 150

/-- Audio chunks are emitted in batches of this many. -/
def AUDIO_BATCH_SIZE : Nat := 3

/-- Pacing pause between audio batches (ms). -/
def AUDIO_BATCH_PAUSE_MS : Nat := 10

/-- Split a list into consecutive groups of three, the iteration
`for (i = 0; i < xs.length; i += BATCH_SIZE) xs.slice(i, i + BATCH_SIZE)`. -/
def toBatches : List α → List (List α)
  | [] => []
  | [a] => [[a]]
  | [a, b] => [[a, b]]
  | a :: b :: c :: rest => [a, b, c] :: toBatches rest

/-- Within one batch, `filter(Boolean)`: drop missing payloads and empty
strings. -/
def truthyChunks (batch : List (Option String)) : List String :=
  (batch.filterMap id).filter (fun s => decide (s ≠ ""))

/-- The audio events of one model turn: the k-th batch of three parts is
emitted `10·k` ms into frame processing (a 10 ms pause separates
consecutive batches). -/
def audioEventsOf (base64s : List (Option String)) : List (Nat × ClientEvent) :=
  ((toBatches base64s).enum.map fun p =>
    (truthyChunks p.2).map fun d => (AUDIO_BATCH_PAUSE_MS * p.1, ClientEvent.audio d)).flatten

/-- The non-audio parts as emitted in the single `content` event: when the
first remaining part has truthy text, every part with truthy text is run
through the repeated-phrase filter. -/
def contentPayload (otherParts : List ContentPart) : List ContentPart :=
  let firstHasText :=
    match otherParts.head? with
    | some p => (match p.text with | some t => decide (t ≠ "") | none => false)
    | none => false
  if firstHasText then
    otherParts.map fun q =>
      match q.text with
      | some t => if t ≠ "" then { q with text := some (removeRepeatedPhrases t) } else q
      | none => q
  else otherParts

/-- Processing of a `modelTurn`: audio parts are emitted as discrete
`audio` events in batches; if any non-audio part remains, exactly one
`content` event follows at the virtual time reached after the last batch
pause. -/
def modelTurnEvents (parts : List ContentPart) : List (Nat × ClientEvent) :=
  let audioParts := parts.filter isAudioPart
  let base64s := audioParts.map fun p => p.inlineData.map InlineData.data
  let otherParts := parts.filter fun p => !(isAudioPart p)
  let audioEvs := audioEventsOf base64s
  let contentTime := AUDIO_BATCH_PAUSE_MS * ((toBatches base64s).length - 1)
  if otherParts.isEmpty then audioEvs
  else audioEvs ++ [(contentTime, ClientEvent.content (contentPayload otherParts))]

/-- The `serverContent` branch of `MultimodalLiveClient.receive`: an
interrupted frame emits `interrupted` immediately, schedules
`turncomplete` after the 700 ms grace delay and returns; otherwise a
turn-complete flag schedules `turncomplete` after 150 ms without
returning, and a model turn is then demultiplexed into audio and content
events. -/
def receiveServerContent (sc : ServerContent) : List (Nat × ClientEvent) :=
  if sc.interrupted then
    [(0, ClientEvent.interrupted), (INTERRUPT_GRACE_MS, ClientEvent.turncomplete)]
  else
    (if sc.turnComplete then [(TURN_COMPLETE_DELAY_MS, ClientEvent.turncomplete)] else []) ++
      match sc.modelTurn with
      | some parts => modelTurnEvents parts
      | none => []

/-- Modelled from the spec: the inbound frame taxonomy of §3
(`multimodal-live-types` is not among the provided sources). -/
inductive IncomingMessage where
  | toolCall (ids : List String)
  | toolCallCancellation (ids : List String)
  | setupComplete
  | serverContent (sc : ServerContent)
  | unmatched
deriving DecidableEq, Repr

/-- `MultimodalLiveClient.receive`: classify one inbound frame and emit
its events; unmatched frames are logged and dropped. -/
def receive : IncomingMessage → List (Nat × ClientEvent)
  | IncomingMessage.toolCall ids => [(0, ClientEvent.toolcall ids)]
  | IncomingMessage.toolCallCancellation ids => [(0, ClientEvent.toolcallcancellation ids)]
  | IncomingMessage.setupComplete => [(0, ClientEvent.setupcomplete)]
  | IncomingMessage.serverContent sc => receiveServerContent sc
  | IncomingMessage.unmatched => []

/-! ### Properties of the inbound dispatcher -/

/-- The base64 payloads of the audio events in an emission list, in
emission order. -/
def audioDatas (evs : List (Nat × ClientEvent)) : List String :=
  evs.filterMap fun te =>
    match te.2 with
    | ClientEvent.audio d => some d
    | _ => none

/-- The number of `content` events in an emission list. -/
def contentCount (evs : List (Nat × ClientEvent)) : Nat :=
  (evs.filter fun te =>
    match te.2 with
    | ClientEvent.content _ => true
    | _ => false).length

theorem toBatches_flatten (l : List α) : (toBatches l).flatten = l := by
  induction l using toBatches.induct with
  | case1 => simp [toBatches]
  | case2 a => simp [toBatches]
  | case3 a b => simp [toBatches]
  | case4 a b c rest ih => simp [toBatches, ih]

theorem truthyChunks_append (a b : List (Option String)) :
    truthyChunks (a ++ b) = truthyChunks a ++ truthyChunks b := by
  simp [truthyChunks, List.filterMap_append, List.filter_append]

theorem truthyChunks_flatten (L : List (List (Option String))) :
    truthyChunks L.flatten = (L.map truthyChunks).flatten := by
  induction L with
  | nil => simp [truthyChunks]
  | cons a L ih => simp [truthyChunks_append, ih]

theorem audioDatas_append (a b : List (Nat × ClientEvent)) :
    audioDatas (a ++ b) = audioDatas a ++ audioDatas b := by
  simp [audioDatas, List.filterMap_append]

theorem audioDatas_flatten (L : List (List (Nat × ClientEvent))) :
    audioDatas L.flatten = (L.map audioDatas).flatten := by
  induction L with
  | nil => simp [audioDatas]
  | cons a L ih => simp [audioDatas_append, ih]

theorem audioDatas_audioEventsOf (bs : List (Option String)) :
    audioDatas (audioEventsOf bs) = truthyChunks bs := by
  have hmap : ∀ (t : Nat) (b : List (Option String)),
      audioDatas ((truthyChunks b).map fun d => (t, ClientEvent.audio d)) =
        truthyChunks b := by
    intro t b
    induction truthyChunks b with
    | nil => simp [audioDatas]
    | cons d ds ih => simpa [audioDatas] using ih
  rw [audioEventsOf, audioDatas_flatten, List.map_map]
  have h1 : (toBatches bs).enum.map
        (audioDatas ∘ fun p =>
          (truthyChunks p.2).map fun d => (AUDIO_BATCH_PAUSE_MS * p.1, ClientEvent.audio d)) =
      (toBatches bs).enum.map (truthyChunks ∘ Prod.snd) :=
    List.map_congr_left fun p _ => hmap _ _
  rw [h1, ← List.map_map, List.enum_map_snd, ← truthyChunks_flatten, toBatches_flatten]

theorem contentCount_audioEventsOf (bs : List (Option String)) :
    contentCount (audioEventsOf bs) = 0 := by
  unfold contentCount
  rw [List.length_eq_zero, List.filter_eq_nil_iff]
  intro te hte
  unfold audioEventsOf at hte
  obtain ⟨l, hl, htel⟩ := List.mem_flatten.mp hte
  obtain ⟨p, _, rfl⟩ := List.mem_map.mp hl
  obtain ⟨d, _, rfl⟩ := List.mem_map.mp htel
  simp

theorem audioDatas_modelTurnEvents (parts : List ContentPart) :
    audioDatas (modelTurnEvents parts) =
      ((parts.filter isAudioPart).filterMap fun p =>
        p.inlineData.map InlineData.data).filter (fun s => decide (s ≠ "")) := by
  have hbase :
      ((parts.filter isAudioPart).map fun p => p.inlineData.map InlineData.data).filterMap id =
        (parts.filter isAudioPart).filterMap fun p => p.inlineData.map InlineData.data := by
    rw [List.filterMap_map]
    rfl
  unfold modelTurnEvents
  by_cases h : (parts.filter fun p => !(isAudioPart p)).isEmpty = true
  · rw [if_pos h, audioDatas_audioEventsOf, truthyChunks, hbase]
  · rw [if_neg h, audioDatas_append, audioDatas_audioEventsOf, truthyChunks, hbase]
    simp [audioDatas]

theorem contentCount_append (a b : List (Nat × ClientEvent)) :
    contentCount (a ++ b) = contentCount a + contentCount b := by
  simp [contentCount, List.filter_append]

theorem contentCount_modelTurnEvents (parts : List ContentPart) :
    contentCount (modelTurnEvents parts) =
      if (parts.filter fun p => !(isAudioPart p)).isEmpty then 0 else 1 := by
  unfold modelTurnEvents
  by_cases h : (parts.filter fun p => !(isAudioPart p)).isEmpty = true
  · rw [if_pos h, if_pos h]
    exact contentCount_audioEventsOf _
  · rw [if_neg h, if_neg h, contentCount_append, contentCount_audioEventsOf]
    rfl

/-- C3: a ServerContent frame signalling interruption emits `interrupted`
immediately (time 0, first in emission order) and `turncomplete` only
after the 700 ms grace delay, which is strictly longer than the 150 ms
delay used for an ordinary turn-complete frame. -/
theorem receive_interruption_grace (sc : ServerContent) (h : sc.interrupted = true) :
    receiveServerContent sc =
      [(0, ClientEvent.interrupted), (INTERRUPT_GRACE_MS, ClientEvent.turncomplete)] ∧
    TURN_COMPLETE_DELAY_MS < INTERRUPT_GRACE_MS ∧ INTERRUPT_GRACE_MS = 700 := by
  refine ⟨?_, by decide, rfl⟩
  rw [receiveServerContent, if_pos h]

theorem receive_interruption_grace_witness :
    receiveServerContent { interrupted := true } =
      [(0, ClientEvent.interrupted), (INTERRUPT_GRACE_MS, ClientEvent.turncomplete)] ∧
    TURN_COMPLETE_DELAY_MS < INTERRUPT_GRACE_MS ∧ INTERRUPT_GRACE_MS = 700 :=
  receive_interruption_grace { interrupted := true } rfl

/-- C10: an interrupting frame produces no `audio` and no `content` events
from its own model-turn parts — processing returns right after emitting
`interrupted` and scheduling the delayed `turncomplete`, so the whole
emission list is those two events, whatever the frame's parts are. -/
theorem receive_interruption_discards (sc : ServerContent) (parts : List ContentPart)
    (h : sc.interrupted = true) (hm : sc.modelTurn = some parts) :
    (∀ te ∈ receiveServerContent sc,
      te.2 = ClientEvent.interrupted ∨ te.2 = ClientEvent.turncomplete) ∧
    (receiveServerContent sc).length = 2 := by
  rw [receiveServerContent, if_pos h]
  refine ⟨?_, rfl⟩
  intro te hte
  simp only [List.mem_cons, List.not_mem_nil, or_false] at hte
  rcases hte with rfl | rfl
  · left; rfl
  · right; rfl

theorem receive_interruption_discards_witness :
    (∀ te ∈ receiveServerContent
        { interrupted := true,
          modelTurn := some [{ text := some "dropped" },
            { inlineData := some { mimeType := "audio/pcm", data := "QUJD" } }] },
      te.2 = ClientEvent.interrupted ∨ te.2 = ClientEvent.turncomplete) ∧
    (receiveServerContent
        { interrupted := true,
          modelTurn := some [{ text := some "dropped" },
            { inlineData := some { mimeType := "audio/pcm", data := "QUJD" } }] }).length = 2 :=
  receive_interruption_discards _
    [{ text := some "dropped" },
      { inlineData := some { mimeType := "audio/pcm", data := "QUJD" } }] rfl rfl

/-- C8: a non-interrupting frame with a turn-complete flag schedules
`turncomplete` after the short 150 ms delay (shorter than the 700 ms
interruption grace) and still processes the same frame's model turn: the
audio and content events follow in the same emission list. -/
theorem receive_turnComplete_continues (sc : ServerContent) (parts : List ContentPart)
    (h1 : sc.interrupted = false) (h2 : sc.turnComplete = true)
    (h3 : sc.modelTurn = some parts) :
    receiveServerContent sc =
      (TURN_COMPLETE_DELAY_MS, ClientEvent.turncomplete) :: modelTurnEvents parts ∧
    TURN_COMPLETE_DELAY_MS < INTERRUPT_GRACE_MS := by
  refine ⟨?_, by decide⟩
  rw [receiveServerContent, if_neg (by simp [h1]), if_pos h2, h3]
  rfl

theorem receive_turnComplete_continues_witness :
    receiveServerContent
        { interrupted := false, turnComplete := true,
          modelTurn := some [{ inlineData := some { mimeType := "audio/pcm", data := "QUJD" } },
            { text := some "hi there" }] } =
      (TURN_COMPLETE_DELAY_MS, ClientEvent.turncomplete) ::
        modelTurnEvents [{ inlineData := some { mimeType := "audio/pcm", data := "QUJD" } },
          { text := some "hi there" }] ∧
    TURN_COMPLETE_DELAY_MS < INTERRUPT_GRACE_MS :=
  receive_turnComplete_continues _
    [{ inlineData := some { mimeType := "audio/pcm", data := "QUJD" } },
      { text := some "hi there" }] rfl rfl rfl

/-- C4: counterexample to the claim as stated.  A model-turn part whose
MIME type starts with the audio prefix but whose payload is the empty
string is removed by the source's `filter(Boolean)` and emits no `audio`
event at all, so not every audio-MIME part yields a discrete audio
event: a frame with one such part produces zero audio events. -/
theorem receive_demux_claim_counterexample :
    ¬ (audioDatas (receiveServerContent
          { modelTurn := some [{ inlineData := some { mimeType := "audio/pcm", data := "" } }] })).length =
        (((({ modelTurn := some [{ inlineData := some { mimeType := "audio/pcm", data := "" } }] } :
          ServerContent)).modelTurn.getD []).filter isAudioPart).length := by
  decide

/-- C4 (amended): for a non-interrupting frame carrying a model turn, the
audio parts (MIME type starting with the audio prefix) with non-empty
payloads are each emitted as a discrete `audio` event, in their order
within the frame; exactly one `content` event is emitted iff at least one
non-audio part remains, and a frame whose parts are all audio emits no
`content` event. -/
theorem receive_demux (sc : ServerContent) (parts : List ContentPart)
    (h1 : sc.interrupted = false) (h2 : sc.modelTurn = some parts) :
    audioDatas (receiveServerContent sc) =
      ((parts.filter isAudioPart).filterMap fun p =>
        p.inlineData.map InlineData.data).filter (fun s => decide (s ≠ "")) ∧
    contentCount (receiveServerContent sc) =
      (if (parts.filter fun p => !(isAudioPart p)).isEmpty then 0 else 1) := by
  have hsplit : receiveServerContent sc =
      (if sc.turnComplete then [(TURN_COMPLETE_DELAY_MS, ClientEvent.turncomplete)] else []) ++
        modelTurnEvents parts := by
    rw [receiveServerContent, if_neg (by simp [h1]), h2]
  have htc_a : audioDatas
      (if sc.turnComplete then [(TURN_COMPLETE_DELAY_MS, ClientEvent.turncomplete)] else []) = [] := by
    by_cases ht : sc.turnComplete = true <;> simp [ht, audioDatas]
  have htc_c : contentCount
      (if sc.turnComplete then [(TURN_COMPLETE_DELAY_MS, ClientEvent.turncomplete)] else []) = 0 := by
    by_cases ht : sc.turnComplete = true <;> simp [ht, contentCount]
  constructor
  · rw [hsplit, audioDatas_append, htc_a, List.nil_append, audioDatas_modelTurnEvents]
  · rw [hsplit, contentCount_append, htc_c, contentCount_modelTurnEvents, Nat.zero_add]

theorem receive_demux_witness :
    audioDatas (receiveServerContent
        { modelTurn := some [{ inlineData := some { mimeType := "audio/pcm", data := "QUJD" } },
            { text := some "hi there" },
            { inlineData := some { mimeType := "audio/pcm", data := "REVG" } }] }) =
      ((([{ inlineData := some { mimeType := "audio/pcm", data := "QUJD" } },
          { text := some "hi there" },
          { inlineData := some { mimeType := "audio/pcm", data := "REVG" } }] :
            List ContentPart).filter isAudioPart).filterMap fun p =>
        p.inlineData.map InlineData.data).filter (fun s => decide (s ≠ "")) ∧
    contentCount (receiveServerContent
        { modelTurn := some [{ inlineData := some { mimeType := "audio/pcm", data := "QUJD" } },
            { text := some "hi there" },
            { inlineData := some { mimeType := "audio/pcm", data := "REVG" } }] }) =
      (if (([{ inlineData := some { mimeType := "audio/pcm", data := "QUJD" } },
          { text := some "hi there" },
          { inlineData := some { mimeType := "audio/pcm", data := "REVG" } }] :
            List ContentPart).filter fun p => !(isAudioPart p)).isEmpty then 0 else 1) :=
  receive_demux _
    [{ inlineData := some { mimeType := "audio/pcm", data := "QUJD" } },
      { text := some "hi there" },
      { inlineData := some { mimeType := "audio/pcm", data := "REVG" } }] rfl rfl


/-! ### The Tool-Call Intent Gate (`BrowserIntentAgent.onToolCall`)

The embedding follows the complete variant of the agent (the one with the
timeout race and the try/catch/finally acknowledgement paths).  One
invocation of the handler is a function of the gate's mutable refs (the
processing lock and the last accepted text / action-target key /
timestamp), the tool-call event's function calls, the current time, and
the outcome of the backend `fetch` (success with a response text, or any
failure: rejection, timeout, non-ok HTTP status).  The handler's outputs
are the tool responses sent, the backend side-effect calls made, the
`[UPDATE]` messages sent back into the conversation, and the intents
appended to the UI log.  The `finally` block releases the processing lock
only 2000 ms later; within the handler's own step the returned state
keeps `processing = true`. -/

/-- Modelled from the spec: one entry of a ToolCall frame's
`functionCalls` (`{id, name, args}` per spec §6, with the
`log_browser_intent` argument record inlined). -/
structure FnCall where
  id : String
  name : String
  action : String
  target : String
  rawText : String
deriving DecidableEq, Repr

/-- Which of the three duplicate checks fired. -/
inductive DupType where
  | exact
  | actionTarget
  | throttled
deriving DecidableEq, Repr

/-- The acknowledgement payload sent back for one tool call. -/
inductive AckKind where
  | skipped
  | duplicate (t : DupType)
  | success
  | failure (msg : String)
deriving DecidableEq, Repr

/-- The gate's mutable refs. -/
structure GateState where
  processing : Bool := false
  lastText : String := ""
  lastKey : String := ""
  lastTs : Nat := 0
deriving DecidableEq, Repr

/-- An accepted intent, as appended to the UI log. -/
structure BrowserIntent where
  action : String
  target : String
  rawText : String
  timestamp : Nat
deriving DecidableEq, Repr

/-- Everything one handler invocation sends or records. -/
structure GateOutput where
  acks : List (String × AckKind) := []
  sideEffects : List (String × String × String) := []
  updates : List String := []
  intents : List BrowserIntent := []
deriving DecidableEq, Repr

/-- Debounce window for exact text matches (ms). -/
def TEXT_DEBOUNCE_THRESHOLD : Nat := 2000

/-- Debounce window for same action+target (ms). -/
def ACTION_DEBOUNCE_THRESHOLD : Nat := 3500

/-- Minimum interval between accepted commands (ms). -/
def THROTTLE_MS : Nat := 1000

/-- `onToolCall`: find the `log_browser_intent` invocation; skip while a
previous intent is processing; classify duplicates by exact text, by
action+target key, and by throttle; otherwise set the lock, record
(text, key, timestamp) and run the backend call, acknowledging exactly
once on both the success and the failure path.  JS `Date.now()`
subtraction on the recorded past timestamp coincides with truncated
`Nat` subtraction for every pair of values. -/
def onToolCall (s : GateState) (calls : List FnCall) (now : Nat)
    (backend : Except String String) : GateOutput × GateState :=
  match calls.find? (fun f => f.name == "log_browser_intent") with
  | none => ({}, s)
  | some fc =>
    if s.processing then
      ({ acks := [(fc.id, AckKind.skipped)] }, s)
    else
      let actionTargetKey := fc.action ++ ":" ++ fc.target
      let isExactDuplicate :=
        fc.rawText == s.lastText && decide (now - s.lastTs < TEXT_DEBOUNCE_THRESHOLD)
      let isActionTargetDuplicate :=
        actionTargetKey == s.lastKey && decide (now - s.lastTs < ACTION_DEBOUNCE_THRESHOLD)
      let isThrottled := decide (now - s.lastTs < THROTTLE_MS)
      if isExactDuplicate || isActionTargetDuplicate || isThrottled then
        ({ acks := [(fc.id, AckKind.duplicate
            (if isExactDuplicate then DupType.exact
             else if isActionTargetDuplicate then DupType.actionTarget
             else DupType.throttled))] }, s)
      else
        let s1 : GateState :=
          { processing := true, lastText := fc.rawText,
            lastKey := actionTargetKey, lastTs := now }
        match backend with
        | Except.ok responseText =>
          ({ acks := [(fc.id, AckKind.success)],
             sideEffects := [(fc.action, fc.target, fc.rawText)],
             updates := ["[UPDATE]: " ++ responseText],
             intents := [⟨fc.action, fc.target, fc.rawText, now⟩] }, s1)
        | Except.error e =>
          ({ acks := [(fc.id, AckKind.failure e)],
             sideEffects := [(fc.action, fc.target, fc.rawText)] }, s1)

/-- A sample tool call used to witness the gate theorems. -/
def fcPizza : FnCall :=
  { id := "c1", name := "log_browser_intent", action := "SEARCH",
    target := "pizza", rawText := "find pizza" }

/-- A rephrasing of `fcPizza` with the same action and target. -/
def fcPizzaReworded : FnCall :=
  { id := "c2", name := "log_browser_intent", action := "SEARCH",
    target := "pizza", rawText := "search for pizza" }

/-- The gate state after accepting `fcPizza` at time 4000 ms. -/
def gsAfterPizza : GateState :=
  { processing := false, lastText := "find pizza",
    lastKey := "SEARCH:pizza", lastTs := 4000 }

/-- C1: every tool-call event carrying a `log_browser_intent` invocation
is acknowledged exactly once, on all four paths: skipped while another
intent is in flight, classified as a duplicate, accepted with a
successful side effect, or accepted with a failing side effect. -/
theorem onToolCall_acks_once (s : GateState) (calls : List FnCall) (now : Nat)
    (backend : Except String String)
    (h : ∃ f ∈ calls, f.name = "log_browser_intent") :
    ((onToolCall s calls now backend).1.acks).length = 1 := by
  have hfind : (calls.find? (fun f => f.name == "log_browser_intent")).isSome = true := by
    rw [List.find?_isSome]
    obtain ⟨f, hf, hn⟩ := h
    exact ⟨f, hf, by simp [hn]⟩
  obtain ⟨fc, hfc⟩ := Option.isSome_iff_exists.mp hfind
  unfold onToolCall
  rw [hfc]
  by_cases hp : s.processing = true
  · simp [hp]
  · simp only [Bool.not_eq_true] at hp
    simp only [hp, Bool.false_eq_true, if_false]
    split
    · rfl
    · cases backend <;> rfl

theorem onToolCall_acks_once_witness :
    ((onToolCall {} [fcPizza] 5000 (Except.ok "done")).1.acks).length = 1 :=
  onToolCall_acks_once {} [fcPizza] 5000 (Except.ok "done")
    ⟨fcPizza, List.mem_singleton.mpr rfl, rfl⟩

/-- The duplicate classification exactly as claim C2 words it, over the
gate's recorded state: exact raw text within 2000 ms, or same
action:target key within 3500 ms, or any call within 1000 ms of the
previous acceptance. -/
def claimDuplicate (s : GateState) (fc : FnCall) (now : Nat) : Prop :=
  (fc.rawText = s.lastText ∧ now - s.lastTs < 2000) ∨
  (fc.action ++ ":" ++ fc.target = s.lastKey ∧ now - s.lastTs < 3500) ∨
  now - s.lastTs < 1000

instance (s : GateState) (fc : FnCall) (now : Nat) :
    Decidable (claimDuplicate s fc now) := by
  unfold claimDuplicate
  infer_instance

/-- C2: with no intent in flight, a call satisfying any of the three
duplicate checks makes no backend side-effect call, is acknowledged as a
duplicate, and leaves the recorded state unchanged; a call failing all
three triggers exactly one side-effect call and updates the recorded
(text, action:target key, timestamp) to its own. -/
theorem onToolCall_dedup (s : GateState) (fc : FnCall) (calls : List FnCall)
    (now : Nat) (backend : Except String String)
    (hp : s.processing = false)
    (hfind : calls.find? (fun f => f.name == "log_browser_intent") = some fc) :
    (claimDuplicate s fc now →
      (onToolCall s calls now backend).1.sideEffects = [] ∧
      (∃ t, (onToolCall s calls now backend).1.acks = [(fc.id, AckKind.duplicate t)]) ∧
      (onToolCall s calls now backend).2 = s) ∧
    (¬ claimDuplicate s fc now →
      (onToolCall s calls now backend).1.sideEffects = [(fc.action, fc.target, fc.rawText)] ∧
      (onToolCall s calls now backend).2.processing = true ∧
      (onToolCall s calls now backend).2.lastText = fc.rawText ∧
      (onToolCall s calls now backend).2.lastKey = fc.action ++ ":" ++ fc.target ∧
      (onToolCall s calls now backend).2.lastTs = now) := by
  unfold onToolCall
  rw [hfind]
  simp only [hp, Bool.false_eq_true, if_false]
  have hbool :
      (fc.rawText == s.lastText && decide (now - s.lastTs < TEXT_DEBOUNCE_THRESHOLD) ||
        fc.action ++ ":" ++ fc.target == s.lastKey &&
          decide (now - s.lastTs < ACTION_DEBOUNCE_THRESHOLD) ||
        decide (now - s.lastTs < THROTTLE_MS)) = true ↔
      claimDuplicate s fc now := by
    unfold claimDuplicate TEXT_DEBOUNCE_THRESHOLD ACTION_DEBOUNCE_THRESHOLD THROTTLE_MS
    simp [Bool.or_eq_true, Bool.and_eq_true, beq_iff_eq]
    tauto
  constructor
  · intro hdup
    rw [if_pos (hbool.mpr hdup)]
    exact ⟨rfl, ⟨_, rfl⟩, rfl⟩
  · intro hdup
    rw [if_neg (fun hc => hdup (hbool.mp hc))]
    cases backend <;> exact ⟨rfl, rfl, rfl, rfl, rfl⟩

theorem onToolCall_dedup_witness :
    ((claimDuplicate gsAfterPizza fcPizzaReworded 5000 →
      (onToolCall gsAfterPizza [fcPizzaReworded] 5000 (Except.ok "opened")).1.sideEffects = [] ∧
      (∃ t, (onToolCall gsAfterPizza [fcPizzaReworded] 5000 (Except.ok "opened")).1.acks =
        [(fcPizzaReworded.id, AckKind.duplicate t)]) ∧
      (onToolCall gsAfterPizza [fcPizzaReworded] 5000 (Except.ok "opened")).2 = gsAfterPizza) ∧
    (¬ claimDuplicate gsAfterPizza fcPizzaReworded 5000 →
      (onToolCall gsAfterPizza [fcPizzaReworded] 5000 (Except.ok "opened")).1.sideEffects =
        [(fcPizzaReworded.action, fcPizzaReworded.target, fcPizzaReworded.rawText)] ∧
      (onToolCall gsAfterPizza [fcPizzaReworded] 5000 (Except.ok "opened")).2.processing = true ∧
      (onToolCall gsAfterPizza [fcPizzaReworded] 5000 (Except.ok "opened")).2.lastText =
        fcPizzaReworded.rawText ∧
      (onToolCall gsAfterPizza [fcPizzaReworded] 5000 (Except.ok "opened")).2.lastKey =
        fcPizzaReworded.action ++ ":" ++ fcPizzaReworded.target ∧
      (onToolCall gsAfterPizza [fcPizzaReworded] 5000 (Except.ok "opened")).2.lastTs = 5000)) :=
  onToolCall_dedup gsAfterPizza fcPizzaReworded [fcPizzaReworded] 5000
    (Except.ok "opened") rfl (by decide)

/-! ### The outbound buffer queue of `AudioRecorder` -/

/-- The recorder's queue capacity. -/
def maxBufferQueueSize : Nat := 10

/-- The worklet `onmessage` handler's queue update: push the converted
buffer, then drop the oldest entry (`shift()`) when the queue length
exceeds the capacity. -/
def enqueueAudioChunk (q : List String) (chunk : String) : List String :=
  let q1 := q ++ [chunk]
  if maxBufferQueueSize < q1.length then q1.tail else q1

/-- C9: the pending buffer queue is bounded at 10: enqueueing onto a
full queue discards exactly the oldest chunk, the result is always a
contiguous suffix of the arrival order (FIFO preserved for surviving
chunks), a non-full queue keeps everything, and over any run from the
empty queue the length never exceeds 10. -/
theorem enqueueAudioChunk_bounded (q : List String) (chunk : String)
    (h : q.length ≤ 10) :
    (enqueueAudioChunk q chunk).length ≤ 10 ∧
    (enqueueAudioChunk q chunk) <:+ q ++ [chunk] ∧
    (q.length = 10 → enqueueAudioChunk q chunk = q.tail ++ [chunk]) ∧
    (q.length < 10 → enqueueAudioChunk q chunk = q ++ [chunk]) ∧
    ∀ chunks : List String, (chunks.foldl enqueueAudioChunk []).length ≤ 10 := by
  have hstep : ∀ (r : List String) (c : String), r.length ≤ 10 →
      (enqueueAudioChunk r c).length ≤ 10 := by
    intro r c hr
    unfold enqueueAudioChunk maxBufferQueueSize
    by_cases hlen : 10 < (r ++ [c]).length
    · rw [if_pos hlen]
      simp at hlen ⊢
      omega
    · rw [if_neg hlen]
      simp at hlen ⊢
      omega
  refine ⟨hstep q chunk h, ?_, ?_, ?_, ?_⟩
  · unfold enqueueAudioChunk
    by_cases hlen : maxBufferQueueSize < (q ++ [chunk]).length
    · rw [if_pos hlen]
      exact List.tail_suffix _
    · rw [if_neg hlen]
  · intro h10
    unfold enqueueAudioChunk maxBufferQueueSize
    rw [if_pos (by simp [h10])]
    cases q with
    | nil => simp at h10
    | cons a t => rfl
  · intro hlt
    unfold enqueueAudioChunk maxBufferQueueSize
    rw [if_neg (by simp; omega)]
  · intro chunks
    have : ∀ (cs : List String) (q0 : List String), q0.length ≤ 10 →
        (cs.foldl enqueueAudioChunk q0).length ≤ 10 := by
      intro cs
      induction cs with
      | nil => intro q0 h0; simpa using h0
      | cons c rest ih =>
        intro q0 h0
        exact ih (enqueueAudioChunk q0 c) (hstep q0 c h0)
    exact this chunks [] (by simp)

theorem enqueueAudioChunk_bounded_witness :
    (enqueueAudioChunk ["b0", "b1", "b2", "b3", "b4", "b5", "b6", "b7", "b8", "b9"] "b10").length ≤ 10 ∧
    (enqueueAudioChunk ["b0", "b1", "b2", "b3", "b4", "b5", "b6", "b7", "b8", "b9"] "b10") <:+
      ["b0", "b1", "b2", "b3", "b4", "b5", "b6", "b7", "b8", "b9"] ++ ["b10"] ∧
    ((["b0", "b1", "b2", "b3", "b4", "b5", "b6", "b7", "b8", "b9"] : List String).length = 10 →
      enqueueAudioChunk ["b0", "b1", "b2", "b3", "b4", "b5", "b6", "b7", "b8", "b9"] "b10" =
        (["b0", "b1", "b2", "b3", "b4", "b5", "b6", "b7", "b8", "b9"] : List String).tail ++ ["b10"]) ∧
    ((["b0", "b1", "b2", "b3", "b4", "b5", "b6", "b7", "b8", "b9"] : List String).length < 10 →
      enqueueAudioChunk ["b0", "b1", "b2", "b3", "b4", "b5", "b6", "b7", "b8", "b9"] "b10" =
        ["b0", "b1", "b2", "b3", "b4", "b5", "b6", "b7", "b8", "b9"] ++ ["b10"]) ∧
    ∀ chunks : List String, (chunks.foldl enqueueAudioChunk []).length ≤ 10 :=
  enqueueAudioChunk_bounded ["b0", "b1", "b2", "b3", "b4", "b5", "b6", "b7", "b8", "b9"] "b10"
    (by decide)

/-! ### `MultimodalLiveClient` connect/disconnect lifecycle

Sockets are identified by numbers.  `disconnect` takes the optional
`ws` argument of the source (absent for an explicit user call, the
closing socket for calls made from socket callbacks) and returns the
JS return value, the new client state and the list of sockets whose
`close()` it invoked.  Each socket close fires the close listener
installed by `connect` exactly once: the listener calls
`disconnect(ws)` again and then emits one `close` event. -/

/-- The client's connection state: the current socket, if any. -/
structure LiveClientState where
  ws : Option Nat
deriving DecidableEq, Repr

/-- `disconnect(ws?)`: close the current socket only when no argument is
given or the argument is still the current reference. -/
def disconnect (wsArg : Option Nat) (c : LiveClientState) :
    Bool × LiveClientState × List Nat :=
  match c.ws with
  | some cur =>
    if wsArg = none ∨ wsArg = some cur then (true, { ws := none }, [cur])
    else (false, c, [])
  | none => (false, c, [])

/-- Run the close listeners of a list of closed sockets: each runs
`disconnect(socket)` (which may request further closes) and then emits
one `close` event.  The fuel bounds the cascade; every run in this file
settles within it. -/
def processCloses : Nat → List Nat → LiveClientState → LiveClientState × Nat
  | 0, _, c => (c, 0)
  | _ + 1, [], c => (c, 0)
  | fuel + 1, sock :: rest, c =>
    let d := disconnect (some sock) c
    let r := processCloses fuel (rest ++ d.2.2) d.2.1
    (r.1, r.2 + 1)

/-- Two consecutive `disconnect()` calls from a given state: both return
values and the total number of `close` events emitted by the fired
close listeners. -/
def disconnectTwice (c0 : LiveClientState) : Bool × Bool × Nat :=
  let d1 := disconnect none c0
  let p1 := processCloses 4 d1.2.2 d1.2.1
  let d2 := disconnect none p1.1
  let p2 := processCloses 4 d2.2.2 d2.2.1
  (d1.1, d2.1, p1.2 + p2.2)

/-- C7: `disconnect()` is idempotent.  With a connection open, two
consecutive calls return `true` then `false` and exactly one `close`
event is emitted in total; with no connection open, a call is a no-op
returning `false` that closes nothing. -/
theorem disconnect_idempotent (sock : Nat) :
    disconnectTwice { ws := some sock } = (true, false, 1) ∧
    disconnect none { ws := none } = (false, { ws := none }, []) :=
  ⟨rfl, rfl⟩

/-! ### Voice-activity segmentation of the capture pipeline

The worklet `onmessage` handler of the audio-input component.  A message
carries the block's volume level (percent) and one PCM chunk; chunks are
identified by the index of the message that delivered them, so that
chunk identity across segments is expressible.  Each step may flush the
accumulated segment to transcription; `flushUserAudio` clears the
accumulator and the speaking flag synchronously, before its first
`await`, which the model reflects by returning the cleared state
together with the flushed segment. -/

/-- Level (percent) at which voice counts as started. -/
def START_LEVEL : ℚ := 5

/-- Level (percent) at or below which the stream counts as quiet. -/
def SILENCE_LEVEL : ℚ := 5

/-- Silence duration that ends an utterance (ms). -/
def SILENCE_MS : Nat := 1500

/-- The capture pipeline's mutable refs: the VAD flag, the chunk
accumulator (`userChunksRef`, as message indices) and the time voice was
last heard. -/
structure VadState where
  speaking : Bool := false
  chunks : List Nat := []
  lastVoiceMs : Nat := 0
deriving DecidableEq, Repr

/-- One worklet message: the computed level, whether the remote model is
currently speaking, and the message's timestamp (`performance.now()`). -/
structure AudioMsg where
  level : ℚ
  modelSpeaking : Bool
  now : Nat
deriving DecidableEq, Repr

/-- `flushUserAudio(force)`: with an empty accumulator only the speaking
flag is cleared; otherwise the accumulator is cleared and the flag
dropped before the asynchronous transcription, and the merged segment is
transcribed iff the pipeline was speaking (or the flush was forced). -/
def flushUserAudio (force : Bool) (s : VadState) : VadState × Option (List Nat) :=
  if s.chunks = [] then ({ s with speaking := false }, none)
  else
    ({ s with chunks := [], speaking := false },
      if s.speaking || force then some s.chunks else none)

/-- First block of the handler: at or above the start level with the
model silent, enter the speaking state (resetting the accumulator on the
silent-to-speaking transition) and refresh the voice timer. -/
def vadVoiceUpdate (s : VadState) (m : AudioMsg) : VadState :=
  if START_LEVEL ≤ m.level ∧ m.modelSpeaking = false then
    if s.speaking then { s with lastVoiceMs := m.now }
    else { speaking := true, chunks := [], lastVoiceMs := m.now }
  else s

/-- Second block: while speaking and the model silent, append the chunk
to the accumulator. -/
def vadAppend (s1 : VadState) (i : Nat) (m : AudioMsg) : VadState :=
  if s1.speaking = true ∧ m.modelSpeaking = false then
    { s1 with chunks := s1.chunks ++ [i] }
  else s1

/-- One worklet message through the handler: voice-timer update, chunk
append, then flush when quiet for longer than the timeout. -/
def vadStep (s : VadState) (i : Nat) (m : AudioMsg) : VadState × Option (List Nat) :=
  let s2 := vadAppend (vadVoiceUpdate s m) i m
  if s2.speaking = true ∧ m.modelSpeaking = false ∧ m.level ≤ SILENCE_LEVEL ∧
      SILENCE_MS < m.now - s2.lastVoiceMs then
    flushUserAudio false s2
  else (s2, none)

/-- Run the handler over a message sequence, numbering chunks by message
index and collecting the flushed segments in order. -/
def runVad : VadState → Nat → List AudioMsg → VadState × List (List Nat)
  | s, _, [] => (s, [])
  | s, i, m :: ms =>
    let r := vadStep s i m
    let rest := runVad r.1 (i + 1) ms
    (rest.1, r.2.toList ++ rest.2)

/-- The initial state of the capture pipeline. -/
def initVad : VadState := {}

/-- A run whose level sits exactly at the silence threshold for well over
the silence timeout after speech started. -/
def levelAtThresholdRun : List AudioMsg :=
  [⟨12, false, 0⟩, ⟨5, false, 1600⟩, ⟨5, false, 3300⟩, ⟨5, false, 5000⟩]

/-- C6: counterexample to the claim as stated.  After speech starts at
level 12, the level stays at the silence threshold (exactly 5) for
3400 ms — far longer than the 1500 ms timeout — yet no flush ever
happens, because a level equal to the threshold also reaches the
voice-start threshold (the source compares with `>=` against the same
constant 5) and so refreshes the voice timer on every message. -/
theorem vad_flush_claim_counterexample :
    (runVad initVad 0 levelAtThresholdRun).2 = [] ∧
    (runVad initVad 0 levelAtThresholdRun).1.speaking = true := by
  decide

theorem vadVoiceUpdate_chunks (s : VadState) (m : AudioMsg) :
    (vadVoiceUpdate s m).chunks = [] ∨ (vadVoiceUpdate s m).chunks = s.chunks := by
  unfold vadVoiceUpdate
  by_cases h1 : START_LEVEL ≤ m.level ∧ m.modelSpeaking = false
  · rw [if_pos h1]
    by_cases h2 : s.speaking = true
    · rw [if_pos h2]; right; rfl
    · rw [if_neg h2]; left; rfl
  · rw [if_neg h1]; right; rfl

theorem vadAppend_speaking (s1 : VadState) (i : Nat) (m : AudioMsg) :
    (vadAppend s1 i m).speaking = s1.speaking := by
  unfold vadAppend
  by_cases h : s1.speaking = true ∧ m.modelSpeaking = false
  · rw [if_pos h]
  · rw [if_neg h]

theorem vadAppend_chunks (s1 : VadState) (i : Nat) (m : AudioMsg) :
    (vadAppend s1 i m).chunks = s1.chunks ++ [i] ∨ (vadAppend s1 i m).chunks = s1.chunks := by
  unfold vadAppend
  by_cases h : s1.speaking = true ∧ m.modelSpeaking = false
  · rw [if_pos h]; left; rfl
  · rw [if_neg h]; right; rfl

theorem vadStep_cases (s : VadState) (i : Nat) (m : AudioMsg) :
    ((vadStep s i m).1.chunks = [] ∨ (vadStep s i m).1.chunks = s.chunks ∨
      (vadStep s i m).1.chunks = s.chunks ++ [i] ∨ (vadStep s i m).1.chunks = [i]) ∧
    ((vadStep s i m).2 = none ∨
      (((vadStep s i m).2 = some (s.chunks ++ [i]) ∨ (vadStep s i m).2 = some [i]) ∧
        (vadStep s i m).1.chunks = [])) := by
  have h1 := vadVoiceUpdate_chunks s m
  unfold vadStep
  by_cases hf : (vadAppend (vadVoiceUpdate s m) i m).speaking = true ∧
      m.modelSpeaking = false ∧ m.level ≤ SILENCE_LEVEL ∧
      SILENCE_MS < m.now - (vadAppend (vadVoiceUpdate s m) i m).lastVoiceMs
  · rw [if_pos hf]
    have hspk : (vadVoiceUpdate s m).speaking = true := by
      rw [← vadAppend_speaking (vadVoiceUpdate s m) i m]
      exact hf.1
    have happ : vadAppend (vadVoiceUpdate s m) i m =
        { vadVoiceUpdate s m with chunks := (vadVoiceUpdate s m).chunks ++ [i] } := by
      unfold vadAppend
      rw [if_pos ⟨hspk, hf.2.1⟩]
    have hne : (vadAppend (vadVoiceUpdate s m) i m).chunks ≠ [] := by
      rw [happ]
      simp
    have hflush : flushUserAudio false (vadAppend (vadVoiceUpdate s m) i m) =
        ({ vadAppend (vadVoiceUpdate s m) i m with chunks := [], speaking := false },
          some ((vadAppend (vadVoiceUpdate s m) i m).chunks)) := by
      unfold flushUserAudio
      rw [if_neg hne, if_pos (by rw [vadAppend_speaking, hspk]; rfl)]
    rw [hflush]
    refine ⟨Or.inl rfl, Or.inr ⟨?_, rfl⟩⟩
    rw [happ]
    rcases h1 with hv | hv <;> rw [hv]
    · right; rfl
    · left; rfl
  · rw [if_neg hf]
    refine ⟨?_, Or.inl rfl⟩
    rcases vadAppend_chunks (vadVoiceUpdate s m) i m with ha | ha <;>
      rcases h1 with hv | hv <;> rw [ha, hv]
    · right; right; right; simp
    · right; right; left; rfl
    · left; rfl
    · right; left; rfl

theorem vadStep_flush_eq (s : VadState) (i : Nat) (m : AudioMsg)
    (hs : s.speaking = true) (hms : m.modelSpeaking = false)
    (hlt : m.level < SILENCE_LEVEL) (ht : SILENCE_MS < m.now - s.lastVoiceMs) :
    vadStep s i m = (⟨false, [], s.lastVoiceMs⟩, some (s.chunks ++ [i])) := by
  have hnv : ¬ (START_LEVEL ≤ m.level ∧ m.modelSpeaking = false) := by
    intro hc
    have hss : START_LEVEL = SILENCE_LEVEL := rfl
    rw [hss] at hc
    exact absurd hc.1 (not_le.mpr hlt)
  have hs1 : vadVoiceUpdate s m = s := by
    unfold vadVoiceUpdate
    rw [if_neg hnv]
  have hs2 : vadAppend s i m = { s with chunks := s.chunks ++ [i] } := by
    unfold vadAppend
    rw [if_pos ⟨hs, hms⟩]
  unfold vadStep
  rw [hs1, hs2, if_pos ⟨hs, hms, le_of_lt hlt, ht⟩]
  unfold flushUserAudio
  rw [if_neg (by simp), if_pos (by rw [show ({ s with chunks := s.chunks ++ [i] } :
    VadState).speaking = s.speaking from rfl, hs]; rfl)]

theorem vadStep_notSpeaking (s : VadState) (i : Nat) (m : AudioMsg)
    (hs : s.speaking = false) : (vadStep s i m).2 = none := by
  by_cases hv : START_LEVEL ≤ m.level ∧ m.modelSpeaking = false
  · have hs1 : vadVoiceUpdate s m = ⟨true, [], m.now⟩ := by
      unfold vadVoiceUpdate
      rw [if_pos hv, if_neg (by rw [hs]; exact Bool.false_ne_true)]
    have hs2 : vadAppend ⟨true, [], m.now⟩ i m = ⟨true, [i], m.now⟩ := by
      unfold vadAppend
      rw [if_pos ⟨rfl, hv.2⟩]
      rfl
    unfold vadStep
    rw [hs1, hs2, if_neg ?hcond]
    case hcond =>
      intro hc
      have := hc.2.2.2
      rw [show (⟨true, [i], m.now⟩ : VadState).lastVoiceMs = m.now from rfl,
        Nat.sub_self] at this
      exact absurd this (by simp [SILENCE_MS])
  · have hs1 : vadVoiceUpdate s m = s := by
      unfold vadVoiceUpdate
      rw [if_neg hv]
    have hs2 : vadAppend s i m = s := by
      unfold vadAppend
      rw [if_neg (fun hc => by rw [hs] at hc; exact Bool.false_ne_true hc.1)]
    unfold vadStep
    rw [hs1, hs2, if_neg (fun hc => by rw [hs] at hc; exact Bool.false_ne_true hc.1)]

theorem runVad_cons (s : VadState) (i : Nat) (m : AudioMsg) (ms : List AudioMsg) :
    runVad s i (m :: ms) =
      ((runVad (vadStep s i m).1 (i + 1) ms).1,
        (vadStep s i m).2.toList ++ (runVad (vadStep s i m).1 (i + 1) ms).2) := rfl

theorem runVad_flat_sorted (msgs : List AudioMsg) :
    ∀ (s : VadState) (i : Nat),
      s.chunks.Sorted (· < ·) → (∀ j ∈ s.chunks, j < i) →
      ((runVad s i msgs).2.flatten.Sorted (· < ·) ∧
        ∀ j ∈ (runVad s i msgs).2.flatten, j ∈ s.chunks ∨ i ≤ j) := by
  induction msgs with
  | nil =>
    intro s i hsort hbound
    simp [runVad]
  | cons m ms ih =>
    intro s i hsort hbound
    obtain ⟨hchunks, hflush⟩ := vadStep_cases s i m
    have hsort' : (vadStep s i m).1.chunks.Sorted (· < ·) := by
      rcases hchunks with h | h | h | h <;> rw [h]
      · exact List.sorted_nil
      · exact hsort
      · exact List.pairwise_append.mpr ⟨hsort, List.pairwise_singleton _ _,
          fun x hx y hy => by
            rw [List.mem_singleton] at hy
            rw [hy]
            exact hbound x hx⟩
      · exact List.pairwise_singleton _ _
    have hbound' : ∀ j ∈ (vadStep s i m).1.chunks, j < i + 1 := by
      rcases hchunks with h | h | h | h <;> rw [h] <;> intro j hj
      · cases hj
      · exact Nat.lt_succ_of_lt (hbound j hj)
      · rcases List.mem_append.mp hj with hj1 | hj1
        · exact Nat.lt_succ_of_lt (hbound j hj1)
        · rw [List.mem_singleton] at hj1
          rw [hj1]
          exact Nat.lt_succ_self i
      · rw [List.mem_singleton] at hj
        rw [hj]
        exact Nat.lt_succ_self i
    obtain ⟨ihsort, ihmem⟩ := ih (vadStep s i m).1 (i + 1) hsort' hbound'
    rw [runVad_cons]
    rcases hflush with hnone | ⟨hseg, hempty⟩
    · rw [hnone]
      refine ⟨ihsort, ?_⟩
      intro j hj
      simp only [Option.toList_none, List.nil_append] at hj
      rcases ihmem j hj with hj1 | hj1
      · rcases hchunks with h | h | h | h <;> rw [h] at hj1
        · cases hj1
        · exact Or.inl hj1
        · rcases List.mem_append.mp hj1 with hj2 | hj2
          · exact Or.inl hj2
          · rw [List.mem_singleton] at hj2
            rw [hj2]
            exact Or.inr (le_refl i)
        · rw [List.mem_singleton] at hj1
          rw [hj1]
          exact Or.inr (le_refl i)
      · exact Or.inr (Nat.le_of_succ_le hj1)
    · have hrest : ∀ j ∈ (runVad (vadStep s i m).1 (i + 1) ms).2.flatten, i + 1 ≤ j := by
        intro j hj
        rcases ihmem j hj with hj1 | hj1
        · rw [hempty] at hj1
          cases hj1
        · exact hj1
      have hsegmem : ∀ seg, (vadStep s i m).2 = some seg →
          (∀ x ∈ seg, x ∈ s.chunks ∨ x = i) ∧ seg.Sorted (· < ·) := by
        intro seg hsome
        rcases hseg with hseg1 | hseg1 <;> rw [hseg1] at hsome <;>
          injection hsome with hsome <;> rw [← hsome]
        · constructor
          · intro x hx
            rcases List.mem_append.mp hx with hx1 | hx1
            · exact Or.inl hx1
            · exact Or.inr (List.mem_singleton.mp hx1)
          · exact List.pairwise_append.mpr ⟨hsort, List.pairwise_singleton _ _,
              fun x hx y hy => by
                rw [List.mem_singleton] at hy
                rw [hy]
                exact hbound x hx⟩
        · constructor
          · intro x hx
            exact Or.inr (List.mem_singleton.mp hx)
          · exact List.pairwise_singleton _ _
      rcases hseg with hseg1 | hseg1 <;> rw [hseg1] <;>
        obtain ⟨hsm, hss⟩ := hsegmem _ hseg1
      · constructor
        · simp only [Option.toList_some, List.singleton_append, List.flatten_cons]
          apply List.pairwise_append.mpr
          refine ⟨hss, ihsort, ?_⟩
          intro x hx y hy
          have hy1 := hrest y hy
          rcases hsm x hx with hx1 | hx1
          · exact lt_of_lt_of_le (Nat.lt_succ_of_lt (hbound x hx1)) hy1
          · rw [hx1]
            exact lt_of_lt_of_le (Nat.lt_succ_self i) hy1
        · intro j hj
          simp only [Option.toList_some, List.singleton_append, List.flatten_cons] at hj
          rcases List.mem_append.mp hj with hj1 | hj1
          · rcases hsm j hj1 with hj2 | hj2
            · exact Or.inl hj2
            · rw [hj2]
              exact Or.inr (le_refl i)
          · exact Or.inr (Nat.le_of_succ_le (hrest j hj1))
      · constructor
        · simp only [Option.toList_some, List.singleton_append, List.flatten_cons]
          apply List.pairwise_cons.mpr
          refine ⟨?_, ihsort⟩
          intro y hy
          exact lt_of_lt_of_le (Nat.lt_succ_self i) (hrest y hy)
        · intro j hj
          simp only [Option.toList_some, List.singleton_append, List.flatten_cons] at hj
          rcases List.mem_cons.mp hj with hj1 | hj1
          · rw [hj1]
            exact Or.inr (le_refl i)
          · exact Or.inr (Nat.le_of_succ_le (hrest j hj1))

/-- C6 (amended): in the speaking state, a worklet message with the model
silent, level strictly below the silence threshold and more than the
1500 ms timeout elapsed since voice was last heard flushes the
accumulated segment (including the message's own chunk) exactly once —
the handler returns the segment and a state whose accumulator is already
empty and whose speaking flag is already cleared, before the
asynchronous transcription runs; outside the speaking state no flush can
happen; and over any message run from the initial state the flushed
segments are pairwise disjoint, so no chunk of a flushed segment ever
appears in a later segment.  (Amended from "at or below the silence
threshold": a level exactly equal to the threshold also reaches the
voice-start threshold and refreshes the voice timer, preventing the
flush.) -/
theorem vad_flush_once_no_reuse :
    (∀ (s : VadState) (i : Nat) (m : AudioMsg),
      s.speaking = true → m.modelSpeaking = false → m.level < SILENCE_LEVEL →
      SILENCE_MS < m.now - s.lastVoiceMs →
      vadStep s i m = (⟨false, [], s.lastVoiceMs⟩, some (s.chunks ++ [i]))) ∧
    (∀ (s : VadState) (i : Nat) (m : AudioMsg), s.speaking = false →
      (vadStep s i m).2 = none) ∧
    (∀ msgs : List AudioMsg, ((runVad initVad 0 msgs).2).Pairwise List.Disjoint) := by
  refine ⟨vadStep_flush_eq, vadStep_notSpeaking, ?_⟩
  intro msgs
  have hsorted := (runVad_flat_sorted msgs initVad 0 List.sorted_nil
    (fun j hj => absurd hj (List.not_mem_nil j))).1
  have hnodup : (runVad initVad 0 msgs).2.flatten.Nodup := hsorted.nodup
  exact (List.nodup_flatten.mp hnodup).2

theorem vad_flush_once_no_reuse_witness :
    vadStep ⟨true, [3, 4], 1600⟩ 5 ⟨2, false, 3200⟩ =
      (⟨false, [], 1600⟩, some ([3, 4] ++ [5])) :=
  vad_flush_once_no_reuse.1 ⟨true, [3, 4], 1600⟩ 5 ⟨2, false, 3200⟩ rfl rfl
    (by decide) (by decide)

end Delphi
